import Mathlib

/-! Verification of the netflix-clone backend (Express + Mongoose variant).

The definitions below are a shallow embedding of the data model and the
route handlers of the repository:

* `Content`   — src/src/models/Content.js (contentSchema)
* `UserRec`   — the Mongoose user schema (email with lowercase/trim,
  password, profileName, myList, ...)
* `recommendations` — router.get of the recommendations endpoint in
  src/src/routes/content.js (lines 123–147)
* `listContent` — the paginated router.get of content with filters
  (lines 52–95)
* `register` — router.post of the register endpoint
* route tables — the Express router registration order in
  src/src/routes/content.js

MongoDB collections are modelled as Lean lists; ObjectIds as `String`;
dates as `Nat` timestamps.
-/

namespace NetflixClone

/-- A catalog entry, embedded from the Mongoose `contentSchema` in
src/src/models/Content.js.  The Mongo `_id` is `id`; `createdAt` is a
numeric timestamp. -/
structure Content where
  id : String
  title : String
  description : String
  type : String
  genre : List String
  releaseYear : Int
  rating : Int
  duration : String
  thumbnailUrl : String
  videoUrl : String
  trailerUrl : String
  cast : List String
  director : String
  createdAt : Nat
deriving DecidableEq, Repr

/-- A user record, embedded from the Mongoose `userSchema` (email,
password hash, profileName, `myList` of content ObjectIds).  Fields the
claims do not touch (subscription, watchHistory, preferences, flags) are
omitted; they are independent of every operation modelled here. -/
structure UserRec where
  email : String
  password : String
  profileName : String
  myList : List String
deriving DecidableEq, Repr

/-! Recommendations endpoint (content.js lines 123–147)

```js
const userGenres = await Content.distinct('genre', { _id: { $in: myList } });
const recommendations = await Content.find({
  genre: { $in: userGenres }, _id: { $nin: myList } }).limit(10);
```
-/

/-- Embeds `Content.distinct('genre', with id in myList)`: the distinct
genres occurring in catalog items whose id is in the watchlist. -/
def watchlistGenres (catalog : List Content) (myList : List String) : List String :=
  ((catalog.filter (fun c => myList.contains c.id)).flatMap (fun c => c.genre)).dedup

/-- The recommendation query: items with a genre among `watchlistGenres`
and an id not in the watchlist, capped at 10 (`.limit(10)`). -/
def recommendations (catalog : List Content) (myList : List String) : List Content :=
  (catalog.filter (fun c =>
    c.genre.any (fun g => (watchlistGenres catalog myList).contains g)
      && !(myList.contains c.id))).take 10

/-- The spec's worked example: watchlist holds A (genre x); the catalog is
A(x), B(x), C(y). -/
def contentA : Content :=
  ⟨"A", "", "", "movie", ["x"], 2000, 5, "", "", "", "", [], "", 3⟩

def contentB : Content :=
  ⟨"B", "", "", "movie", ["x"], 2001, 6, "", "", "", "", [], "", 2⟩

def contentC : Content :=
  ⟨"C", "", "", "movie", ["y"], 2002, 7, "", "", "", "", [], "", 1⟩

def exCatalog : List Content := [contentA, contentB, contentC]

/-! Paginated content listing (content.js lines 52–95)

```js
const query = {};
if (genre) query.genre = genre;
if (type) query.type = type;
if (search) query.$or = [ title regex i , description regex i ];
const total = await Content.countDocuments(query);
const content = await Content.find(query)
  .sort(createdAt descending).skip((page - 1) * limit).limit(limit);
```
-/

/-- The parsed filter parameters.  A `none` models a query parameter that
is absent or empty (JS falsiness of the empty string in `if (genre)`). -/
structure ContentQuery where
  genre : Option String
  type : Option String
  search : Option String
deriving DecidableEq, Repr

/-- Lower-cased character list of a string (ASCII case folding), modelling
the case-insensitive comparison selected by regex option `i`. -/
def lowerChars (s : String) : List Char := s.data.map Char.toLower

/-- Executable substring occurrence test on character lists. -/
def infixTest (needle : List Char) : List Char → Bool
  | [] => needle.isEmpty
  | c :: t => needle.isPrefixOf (c :: t) || infixTest needle t

/-- The literal-containment reading of the search condition — the spec's
wording "case-insensitive substring match".  The route actually hands the
raw term to MongoDB as an unescaped regular expression (see `filterRegex`
below); the two readings coincide exactly for search terms free of regex
metacharacters, which is proved with the C4 theorem. -/
def ciContains (field pat : String) : Bool :=
  infixTest (lowerChars pat) (lowerChars field)

/-- The Mongo filter object built at content.js lines 60–68, with the
search condition in its literal reading (`ciContains`).  An equality
condition on the array field `genre` matches documents whose genre array
contains the scalar; the `$or` clause matches when title or description
matches the search condition. -/
def matchesQuery (q : ContentQuery) (c : Content) : Bool :=
  (match q.genre with
   | none => true
   | some g => c.genre.contains g) &&
  (match q.type with
   | none => true
   | some t => c.type == t) &&
  (match q.search with
   | none => true
   | some s => ciContains c.title s || ciContains c.description s)

/-! Faithful semantics of the search condition.  The route passes the raw,
unescaped search term to MongoDB as `$regex` with option `i`, so MongoDB
interprets it as a PCRE regular expression, not as a literal string.  The
regex engine is external collaborator code (the database), embedded here
for the fragment the theorems touch: literal characters, the any-character
atom `.` (which does not match a newline), and the quantifiers on a single
atom.  A quantifier with nothing to repeat is a genuine pattern error; the
remaining metacharacters open constructs outside the embedded fragment and
the parser refuses them too — no theorem below quantifies over a refused
pattern.  A parse failure models the query throwing, which the route turns
into a 500 response. -/

inductive Ratom where
  | ch (c : Char)
  | dot
deriving DecidableEq, Repr

inductive Rpiece where
  | once (a : Ratom)
  | star (a : Ratom)
  | plus (a : Ratom)
  | opt (a : Ratom)
deriving DecidableEq, Repr

/-- Metacharacters opening constructs outside the embedded fragment. -/
def regexMeta : List Char :=
  ['(', ')', '[', ']', '\x7b', '\x7d', '|', '\\', '^', '$']

/-- Quantifier characters; a pattern may not start with one. -/
def quantChars : List Char := ['*', '+', '?']

/-- One-character-per-step parsing loop.  The first argument holds an
atom already read whose quantifier may still follow; a quantifier with no
pending atom is the genuine nothing-to-repeat pattern error. -/
def parseLoop : Option Ratom → List Char → Option (List Rpiece)
  | none, [] => some []
  | some a, [] => some [Rpiece.once a]
  | none, c :: rest =>
    if regexMeta.contains c || quantChars.contains c then none
    else parseLoop (some (if c == '.' then Ratom.dot else Ratom.ch c)) rest
  | some a, c :: rest =>
    if c == '*' then (parseLoop none rest).map (fun ps => Rpiece.star a :: ps)
    else if c == '+' then
      (parseLoop none rest).map (fun ps => Rpiece.plus a :: ps)
    else if c == '?' then
      (parseLoop none rest).map (fun ps => Rpiece.opt a :: ps)
    else if regexMeta.contains c then none
    else
      (parseLoop (some (if c == '.' then Ratom.dot else Ratom.ch c)) rest).map
        (fun ps => Rpiece.once a :: ps)

/-- Parse a pattern into atom/quantifier pieces; `none` is a refused or
invalid pattern (the query errors). -/
def parsePattern (cs : List Char) : Option (List Rpiece) := parseLoop none cs

def atomMatches : Ratom → Char → Bool
  | .ch x, c => x == c
  | .dot, c => !(c == '\n')

/-- Does the piece list accept the empty string? -/
def nullable : List Rpiece → Bool
  | [] => true
  | .once _ :: _ => false
  | .plus _ :: _ => false
  | .star _ :: ps => nullable ps
  | .opt _ :: ps => nullable ps

/-- The alternatives left after the piece list consumes one character
(a Brzozowski-style derivative). -/
def derivPiece : List Rpiece → Char → List (List Rpiece)
  | [], _ => []
  | .once a :: ps, c => if atomMatches a c then [ps] else []
  | .star a :: ps, c =>
      (if atomMatches a c then [Rpiece.star a :: ps] else []) ++ derivPiece ps c
  | .plus a :: ps, c => if atomMatches a c then [Rpiece.star a :: ps] else []
  | .opt a :: ps, c =>
      (if atomMatches a c then [ps] else []) ++ derivPiece ps c

/-- Does the piece list match some prefix of the character list? -/
def frontMatches : List Rpiece → List Char → Bool
  | ps, [] => nullable ps
  | ps, c :: cs =>
    nullable ps || (derivPiece ps c).any (fun ps2 => frontMatches ps2 cs)

/-- Unanchored matching, as `$regex` without anchors: the pattern matches
somewhere in the character list. -/
def regexSearch (ps : List Rpiece) : List Char → Bool
  | [] => nullable ps
  | c :: cs => frontMatches ps (c :: cs) || regexSearch ps cs

/-- The content listing's result set for a fully supplied filter, with the
faithful regex reading of the search term (case folded by option `i`);
`none` models the invalid-pattern error (the route answers 500). -/
def filterRegex (catalog : List Content) (g t s : String) :
    Option (List Content) :=
  match parsePattern (lowerChars s) with
  | none => none
  | some ps =>
    some (catalog.filter (fun c =>
      c.genre.contains g && (c.type == t) &&
        (regexSearch ps (lowerChars c.title) ||
          regexSearch ps (lowerChars c.description))))

/-- Search terms inside the literal fragment: no metacharacter, no
quantifier, no dot. -/
def literalOnly (cs : List Char) : Bool :=
  cs.all (fun c =>
    !(regexMeta.contains c) && !(quantChars.contains c) && !(c == '.'))

/-- An item whose title "aab" is matched by the regex search term "a+b"
although it does not contain "a+b" literally. -/
def itemAAB : Content :=
  ⟨"X", "aab", "", "movie", ["g"], 2000, 5, "", "", "", "", [], "", 1⟩

/-- The spec's genre-and-search example item: a comedy whose title
contains "love". -/
def itemComedyLove : Content :=
  ⟨"L", "Love Actually", "", "movie", ["comedy"], 2003, 7, "", "", "", "",
    [], "", 5⟩

/-- The `.sort(createdAt: -1)` ordering: newest first. -/
def newestFirst (a b : Content) : Prop := b.createdAt ≤ a.createdAt

instance : DecidableRel newestFirst := fun a b =>
  inferInstanceAs (Decidable (b.createdAt ≤ a.createdAt))

instance : IsTotal Content newestFirst := ⟨fun a b => Nat.le_total _ _⟩

instance : IsTrans Content newestFirst := ⟨fun _ _ _ h1 h2 => Nat.le_trans h2 h1⟩

/-- The filtered results in the order the route returns them: matching
documents sorted by creation time, descending. -/
def sortedMatching (catalog : List Content) (q : ContentQuery) : List Content :=
  (catalog.filter (matchesQuery q)).insertionSort newestFirst

structure PageInfo where
  page : Nat
  limit : Nat
  total : Nat
  pages : Nat
deriving DecidableEq, Repr

structure ListResult where
  content : List Content
  pagination : PageInfo
deriving DecidableEq, Repr

/-- The paginated list endpoint (content.js lines 52–95): filter, count,
sort newest first, `.skip((page - 1) * limit).limit(limit)`, and report
`pages = Math.ceil(total / limit)`, which for `limit ≥ 1` is the natural
number `(total + limit - 1) / limit`. -/
def listContent (catalog : List Content) (q : ContentQuery) (page limit : Nat) :
    ListResult :=
  let total := (catalog.filter (matchesQuery q)).length
  { content := ((sortedMatching catalog q).drop ((page - 1) * limit)).take limit
    pagination :=
      { page := page, limit := limit, total := total
        pages := (total + limit - 1) / limit } }

/-- A catalog item carrying only an id and a creation time, for concrete
pagination checks. -/
def mkItem (i : Nat) : Content :=
  ⟨toString i, "", "", "movie", ["g"], 2000, 5, "", "", "", "", [], "", i⟩

/-- A 25-item catalog, as in the spec's pagination example. -/
def ex25 : List Content := (List.range 25).map mkItem

/-- The query with no filter parameter supplied. -/
def emptyQuery : ContentQuery := ⟨none, none, none⟩

/-! Query-parameter parsing (content.js lines 54–55)

```js
const page = parseInt(req.query.page) || 1;
const limit = parseInt(req.query.limit) || 10;
```
-/

/-- The longest leading run of decimal digits. -/
def leadingDigits : List Char → List Char
  | [] => []
  | c :: t => if c.isDigit then c :: leadingDigits t else []

def digitsToNat (ds : List Char) : Nat :=
  ds.foldl (fun a c => a * 10 + (c.toNat - 48)) 0

/-- JavaScript `parseInt` with the default radix 10: skip leading
whitespace, accept an optional sign, read leading digits; `none` models
the NaN result when no digits are found. -/
def parseIntJS (s : String) : Option Int :=
  let cs := s.data.dropWhile Char.isWhitespace
  match cs with
  | '-' :: rest =>
    match leadingDigits rest with
    | [] => none
    | ds => some (-(digitsToNat ds : Int))
  | '+' :: rest =>
    match leadingDigits rest with
    | [] => none
    | ds => some (digitsToNat ds)
  | _ =>
    match leadingDigits cs with
    | [] => none
    | ds => some (digitsToNat ds)

/-- Embeds `parseInt(req.query.page) || 1`: an absent parameter parses to NaN
(falsy), and a parsed 0 is falsy too; any other parsed value — negative
included — is used as is. -/
def pageParam (qp : Option String) : Int :=
  match qp.bind parseIntJS with
  | none => 1
  | some n => if n = 0 then 1 else n

/-- Embeds `parseInt(req.query.limit) || 10`. -/
def limitParam (qp : Option String) : Int :=
  match qp.bind parseIntJS with
  | none => 10
  | some n => if n = 0 then 10 else n

/-! Registration (auth route: registerValidation + POST register)

```js
const registerValidation = [
  check('email').isEmail(),
  check('password').isLength(min 6),
  check('profileName').not().isEmpty() ];
let user = await User.findOne({ email });
if (user) return 400 'User already exists';
user = new User({ email: email.toLowerCase(), password, profileName });
```
The user schema declares `email: { lowercase: true }`, a Mongoose setter
applied both when a document is saved and when a query filter is cast, so
`findOne` compares against the lower-cased email. -/

/-- JavaScript `String.prototype.toLowerCase` on the ASCII range, as used
in `email.toLowerCase()` and by the schema's `lowercase: true` setter. -/
def jsToLowerCase (s : String) : String := ⟨s.data.map Char.toLower⟩

/-- Modelled from the spec: `isEmail` of the express-validator library is
not code of this repository.  Per the spec a malformed email fails
validation; here an email is well formed when it has exactly one `@`, a
non-empty local part, a domain containing a dot, and no whitespace. -/
def isEmailValid (e : String) : Bool :=
  let cs := e.data
  (cs.count '@' == 1) &&
  (match cs.dropWhile (fun c => c != '@') with
   | _ :: domain =>
     !(cs.takeWhile (fun c => c != '@')).isEmpty &&
       !domain.isEmpty && domain.contains '.'
   | [] => false) &&
  !(cs.any Char.isWhitespace)

/-- The `registerValidation` chain: valid email, password of at least 6
characters (no composition rule), non-empty profile name. -/
def registerValidationOk (email password profileName : String) : Bool :=
  isEmailValid email && decide (6 ≤ password.length) && !(profileName == "")

/-- Models `User.findOne` by email: the schema's `lowercase` setter is applied to
the query value, and every stored email is already lower-cased. -/
def findByEmail (st : List UserRec) (e : String) : Option UserRec :=
  st.find? (fun u => u.email == jsToLowerCase e)

inductive RegisterResponse where
  /-- Status 201 with a token and the public user projection. -/
  | created (u : UserRec)
  /-- Status 400 with message 'User already exists'. -/
  | conflictError
  /-- Status 400 produced by the validate middleware. -/
  | validationFailed
deriving DecidableEq, Repr

structure RegisterOutcome where
  response : RegisterResponse
  state : List UserRec
deriving DecidableEq, Repr

/-- The register route: the validation middleware runs first; then the
duplicate-email lookup; then the user is persisted with a lower-cased
email and a bcrypt-hashed password (the hash function is the external
bcrypt library, passed as a parameter). -/
def register (st : List UserRec) (hash : String → String)
    (email password profileName : String) : RegisterOutcome :=
  if registerValidationOk email password profileName then
    match findByEmail st email with
    | some _ => ⟨.conflictError, st⟩
    | none =>
      let u : UserRec := ⟨jsToLowerCase email, hash password, profileName, []⟩
      ⟨.created u, st ++ [u]⟩
  else
    ⟨.validationFailed, st⟩

/-! Watchlist add and remove. -/

inductive MyListError where
  | notFound
deriving DecidableEq, Repr

/-- Modelled from the spec: the watchlist add operation
(`POST /user/my-list/:id`) is implemented in a route file not present
under src/.  Per the spec it fails NotFound when the content does not
exist, and re-adding an already-present id is a no-op, not an error. -/
def addToMyList (catalog : List Content) (u : UserRec) (contentId : String) :
    Except MyListError UserRec :=
  if (catalog.filter (fun c => c.id == contentId)).isEmpty then
    .error .notFound
  else if u.myList.contains contentId then
    .ok u
  else
    .ok { u with myList := u.myList ++ [contentId] }

/-- Modelled from the spec: the watchlist remove operation
(`DELETE /user/my-list/:id`), also not under src/; removing an absent id
is a no-op. -/
def removeFromMyList (u : UserRec) (contentId : String) : UserRec :=
  { u with myList := u.myList.filter (fun i => i != contentId) }

/-- A user with an empty watchlist, for concrete checks. -/
def exUser : UserRec := ⟨"ann@example.com", "hash", "Ann", []⟩

/-! The Express route table of src/src/routes/content.js

Express dispatches a request to the first registered route whose path
pattern matches.  The file registers, in order: `/`, `/:id`,
`/genre/:genre`, `/recommendations`, each with the `auth` middleware. -/

inductive Seg where
  | lit (s : String)
  | param (s : String)
deriving DecidableEq, Repr

def segMatches : Seg → String → Bool
  | .lit s, x => s == x
  | .param _, _ => true

def pathMatches (pat : List Seg) (path : List String) : Bool :=
  pat.length == path.length &&
    (List.zip pat path).all (fun p => segMatches p.1 p.2)

structure RouteEntry where
  handler : String
  pattern : List Seg
  middleware : List String
deriving DecidableEq, Repr

/-- The GET routes of src/src/routes/content.js in registration order. -/
def contentGetRoutes : List RouteEntry :=
  [⟨"list", [], ["auth"]⟩,
   ⟨"byId", [.param "id"], ["auth"]⟩,
   ⟨"byGenre", [.lit "genre", .param "genre"], ["auth"]⟩,
   ⟨"recommendations", [.lit "recommendations"], ["auth"]⟩]

/-- Express routing: the first registered route whose pattern matches. -/
def dispatchContentGet (path : List String) : Option RouteEntry :=
  contentGetRoutes.find? (fun r => pathMatches r.pattern path)

/-- The `req.params` bindings a matched pattern produces. -/
def bindParams (pat : List Seg) (path : List String) : List (String × String) :=
  (List.zip pat path).foldr
    (fun p acc =>
      match p.1 with
      | .lit _ => acc
      | .param name => (name, p.2) :: acc) []

inductive ApiResponse where
  | ok (body : String)
  | error (status : Nat)
deriving DecidableEq, Repr

/-- Modelled from the spec: the auth middleware (src/middleware/auth.js)
is not under src/.  Per the spec, `authorize(token)` fails Unauthorized
(401) whenever the bearer token is absent or does not verify; JWT
verification itself is external and abstracted as `verify`. -/
def runAuth (verify : String → Option String) (bearer : Option String) :
    Except Nat String :=
  match bearer with
  | none => .error 401
  | some t =>
    match verify t with
    | none => .error 401
    | some uid => .ok uid

/-- Handling a request on a registered route: middleware runs before the
handler, so a route guarded by `auth` answers 401 when verification
fails, whatever the handler would respond. -/
def handleContentRoute (verify : String → Option String)
    (bearer : Option String) (r : RouteEntry)
    (respond : String → ApiResponse) : ApiResponse :=
  if r.middleware.contains "auth" then
    match runAuth verify bearer with
    | .error code => .error code
    | .ok uid => respond uid
  else
    respond ""

/-- The user-store states reachable through the register operation — the
only operation of the repository that writes user emails. -/
inductive ReachableUsers (hash : String → String) : List UserRec → Prop where
  | init : ReachableUsers hash []
  | step (st : List UserRec) (e p n : String) :
      ReachableUsers hash st →
      ReachableUsers hash (register st hash e p n).state

lemma mem_watchlistGenres {catalog : List Content} {myList : List String} {g : String} :
    g ∈ watchlistGenres catalog myList ↔
      ∃ w ∈ catalog, w.id ∈ myList ∧ g ∈ w.genre := by
  simp only [watchlistGenres, List.mem_dedup, List.mem_flatMap, List.mem_filter,
    List.contains_iff_exists_mem_beq, beq_iff_eq]
  constructor
  · rintro ⟨w, ⟨hw, i, hi, hid⟩, hg⟩
    exact ⟨w, hw, hid ▸ hi, hg⟩
  · rintro ⟨w, hw, hi, hg⟩
    exact ⟨w, ⟨hw, w.id, hi, rfl⟩, hg⟩

/-- C1: the recommendation operation returns only content whose genre set
meets the set of genres occurring in the user's watchlist and whose id is
not already in the watchlist, and returns at most 10 items; an item
already in the watchlist is never recommended. -/
theorem recommendations_sound (catalog : List Content) (myList : List String)
    (c : Content) (hc : c ∈ recommendations catalog myList) :
    (∃ g ∈ c.genre, ∃ w ∈ catalog, w.id ∈ myList ∧ g ∈ w.genre) ∧
      c.id ∉ myList ∧ (recommendations catalog myList).length ≤ 10 := by
  have hlen : (recommendations catalog myList).length ≤ 10 := by
    rw [recommendations]
    exact List.length_take_le 10 _
  have hmem := List.mem_of_mem_take (by simpa [recommendations] using hc)
  rw [List.mem_filter] at hmem
  obtain ⟨-, hpred⟩ := hmem
  rw [Bool.and_eq_true, List.any_eq_true] at hpred
  obtain ⟨⟨g, hg, hgw⟩, hnin⟩ := hpred
  refine ⟨⟨g, hg, ?_⟩, ?_, hlen⟩
  · exact mem_watchlistGenres.mp (by simp at hgw; exact hgw)
  · simp at hnin
    exact hnin

/-- C1 witness: in the spec's example catalog with watchlist pointing at A,
item B is recommended and satisfies the soundness properties, and the
recommendation list is exactly B — A is never recommended. -/
theorem recommendations_sound_witness :
    ((∃ g ∈ contentB.genre, ∃ w ∈ exCatalog, w.id ∈ ["A"] ∧ g ∈ w.genre) ∧
      contentB.id ∉ ["A"] ∧ (recommendations exCatalog ["A"]).length ≤ 10) ∧
      recommendations exCatalog ["A"] = [contentB] :=
  ⟨recommendations_sound exCatalog ["A"] contentB (by decide), by decide⟩

lemma cast_pred_div_eq_ceil (t l : ℕ) (hl : 1 ≤ l) :
    (((t + l - 1) / l : ℕ) : ℤ) = ⌈(t : ℚ) / (l : ℚ)⌉ := by
  have hl0 : 0 < l := hl
  set q := (t + l - 1) / l with hq
  have h1 : t + l - 1 < (q + 1) * l := by
    rw [hq]
    exact (Nat.div_lt_iff_lt_mul hl0).mp (Nat.lt_succ_self _)
  have h2 : q * l ≤ t + l - 1 := by
    rw [hq]
    exact Nat.div_mul_le_self _ _
  rw [add_mul, one_mul] at h1
  have hub : t ≤ q * l := by omega
  have hlQ : (0 : ℚ) < l := by exact_mod_cast hl0
  symm
  rw [Int.ceil_eq_iff]
  have h1le : 1 ≤ t + l := by omega
  constructor
  · rw [lt_div_iff₀ hlQ]
    have hlb : (q : ℚ) * l ≤ (t : ℚ) + l - 1 := by
      calc (q : ℚ) * l = ((q * l : ℕ) : ℚ) := by push_cast; ring
        _ ≤ ((t + l - 1 : ℕ) : ℚ) := by exact_mod_cast h2
        _ = (t : ℚ) + l - 1 := by
            rw [Nat.cast_sub h1le]
            push_cast
            ring
    push_cast
    nlinarith [hlQ]
  · rw [div_le_iff₀ hlQ]
    have : (t : ℚ) ≤ (q : ℚ) * l := by exact_mod_cast hub
    push_cast
    linarith

/-- C2: the content list operation reports the exact count of matching
items, a page count equal to the ceiling of total/limit, and returns at
most `limit` items, namely the page-th (1-indexed) contiguous group of
the matching results ordered by creation time descending. -/
theorem listContent_paginates (catalog : List Content) (q : ContentQuery)
    (page limit : ℕ) (hp : 1 ≤ page) (hl : 1 ≤ limit) :
    (listContent catalog q page limit).pagination.total =
        (catalog.filter (matchesQuery q)).length ∧
      ((listContent catalog q page limit).pagination.pages : ℤ) =
        ⌈((listContent catalog q page limit).pagination.total : ℚ) / (limit : ℚ)⌉ ∧
      (listContent catalog q page limit).content.length ≤ limit ∧
      (sortedMatching catalog q).Perm (catalog.filter (matchesQuery q)) ∧
      (sortedMatching catalog q).Pairwise (fun a b => b.createdAt ≤ a.createdAt) ∧
      ∀ i, i < limit →
        (listContent catalog q page limit).content[i]? =
          (sortedMatching catalog q)[(page - 1) * limit + i]? := by
  refine ⟨rfl, ?_, ?_, List.perm_insertionSort _ _, ?_, ?_⟩
  · exact cast_pred_div_eq_ceil _ _ hl
  · exact List.length_take_le _ _
  · exact List.sorted_insertionSort newestFirst _
  · intro i hi
    show (((sortedMatching catalog q).drop ((page - 1) * limit)).take limit)[i]? = _
    rw [List.getElem?_take, if_pos hi, List.getElem?_drop]

/-- C2 witness: at the spec's example — 25 matching items, limit 10 — the
general pagination theorem applies, and concretely page 1 returns 10 items
with `pages` = 3 and `total` = 25, while page 4 returns an empty item list
with the same total. -/
theorem listContent_paginates_witness :
    ((listContent ex25 emptyQuery 1 10).pagination.total =
        (ex25.filter (matchesQuery emptyQuery)).length ∧
      ((listContent ex25 emptyQuery 1 10).pagination.pages : ℤ) =
        ⌈((listContent ex25 emptyQuery 1 10).pagination.total : ℚ) / (10 : ℚ)⌉ ∧
      (listContent ex25 emptyQuery 1 10).content.length ≤ 10 ∧
      (sortedMatching ex25 emptyQuery).Perm (ex25.filter (matchesQuery emptyQuery)) ∧
      (sortedMatching ex25 emptyQuery).Pairwise (fun a b => b.createdAt ≤ a.createdAt) ∧
      ∀ i, i < 10 →
        (listContent ex25 emptyQuery 1 10).content[i]? =
          (sortedMatching ex25 emptyQuery)[(1 - 1) * 10 + i]?) ∧
      (listContent ex25 emptyQuery 1 10).content.length = 10 ∧
      (listContent ex25 emptyQuery 1 10).pagination.pages = 3 ∧
      (listContent ex25 emptyQuery 1 10).pagination.total = 25 ∧
      (listContent ex25 emptyQuery 4 10).content = [] ∧
      (listContent ex25 emptyQuery 4 10).pagination.total = 25 :=
  ⟨listContent_paginates ex25 emptyQuery 1 10 (by decide) (by decide), by decide,
    by decide, by decide, by decide, by decide⟩

lemma infixTest_iff (needle hay : List Char) :
    infixTest needle hay = true ↔ needle <:+: hay := by
  induction hay with
  | nil => simp [infixTest, List.isEmpty_iff, List.infix_nil]
  | cons c t ih =>
    simp only [infixTest, Bool.or_eq_true, ih, List.isPrefixOf_iff_prefix]
    exact (List.infix_cons_iff).symm

lemma not_quant (c : Char) (h : quantChars.contains c = false) :
    (c == '*') = false ∧ (c == '+') = false ∧ (c == '?') = false := by
  refine ⟨?_, ?_, ?_⟩ <;>
    · rw [← Bool.not_eq_true]
      intro hb
      rw [beq_iff_eq] at hb
      subst hb
      exact absurd h (by decide)

lemma parseLoop_literal : ∀ cs : List Char, literalOnly cs = true →
    parseLoop none cs =
        some (cs.map (fun c => Rpiece.once (Ratom.ch c))) ∧
      ∀ a : Ratom, parseLoop (some a) cs =
        some (Rpiece.once a :: cs.map (fun c => Rpiece.once (Ratom.ch c)))
  | [], _ => ⟨rfl, fun _ => rfl⟩
  | c :: cs, h => by
    rw [literalOnly, List.all_cons, Bool.and_eq_true, Bool.and_eq_true,
      Bool.and_eq_true, Bool.not_eq_true', Bool.not_eq_true',
      Bool.not_eq_true'] at h
    obtain ⟨⟨⟨hm, hq⟩, hd⟩, htail⟩ := h
    have ih := parseLoop_literal cs htail
    obtain ⟨hq1, hq2, hq3⟩ := not_quant c hq
    constructor
    · simp only [parseLoop, hm, hq, hd, Bool.or_self, Bool.false_eq_true,
        if_false]
      rw [ih.2 (Ratom.ch c)]
      rfl
    · intro a
      simp only [parseLoop, hq1, hq2, hq3, hm, hd, Bool.false_eq_true,
        if_false]
      rw [ih.2 (Ratom.ch c)]
      rfl

lemma parsePattern_literal (cs : List Char) (h : literalOnly cs = true) :
    parsePattern cs = some (cs.map (fun c => Rpiece.once (Ratom.ch c))) :=
  (parseLoop_literal cs h).1

lemma frontMatches_literal : ∀ ds cs : List Char,
    frontMatches (ds.map (fun d => Rpiece.once (Ratom.ch d))) cs =
      ds.isPrefixOf cs
  | [], [] => rfl
  | [], _ :: _ => rfl
  | _ :: _, [] => rfl
  | d :: ds, c :: cs => by
    simp only [List.map_cons, frontMatches, nullable, derivPiece, atomMatches,
      List.isPrefixOf, Bool.false_or]
    by_cases hdc : (d == c) = true
    · rw [if_pos hdc, hdc]
      simp [frontMatches_literal ds cs]
    · rw [if_neg hdc]
      rw [Bool.not_eq_true] at hdc
      rw [hdc]
      simp

lemma regexSearch_literal (ds : List Char) : ∀ cs : List Char,
    (regexSearch (ds.map (fun d => Rpiece.once (Ratom.ch d))) cs = true ↔
      ds <:+: cs)
  | [] => by
    cases ds with
    | nil => simp [regexSearch, nullable, List.infix_nil]
    | cons d ds' => simp [regexSearch, nullable, List.infix_nil]
  | c :: cs => by
    simp only [regexSearch, Bool.or_eq_true, frontMatches_literal,
      List.isPrefixOf_iff_prefix, regexSearch_literal ds cs]
    exact (List.infix_cons_iff).symm

lemma lowered_char_literal : ∀ n < 91, 65 ≤ n →
    regexMeta.contains (Char.ofNat (n + 32)) = false ∧
      quantChars.contains (Char.ofNat (n + 32)) = false ∧
      ((Char.ofNat (n + 32)) == '.') = false := by decide

lemma toLower_literal (c : Char)
    (hcl : (!(regexMeta.contains c) && !(quantChars.contains c) &&
      !(c == '.')) = true) :
    (!(regexMeta.contains (Char.toLower c)) &&
      !(quantChars.contains (Char.toLower c)) &&
      !((Char.toLower c) == '.')) = true := by
  simp only [Char.toLower]
  by_cases hup : c.toNat ≥ 65 ∧ c.toNat ≤ 90
  · rw [if_pos hup]
    obtain ⟨k1, k2, k3⟩ := lowered_char_literal c.toNat (by omega) (by omega)
    rw [k1, k2, k3]
    rfl
  · rw [if_neg hup]
    exact hcl

lemma literalOnly_lowerChars (s : String) (h : literalOnly s.data = true) :
    literalOnly (lowerChars s) = true := by
  rw [literalOnly, lowerChars, List.all_map]
  rw [literalOnly, List.all_eq_true] at h
  rw [List.all_eq_true]
  intro c hc
  exact toLower_literal c (h c hc)

lemma bool_eq_of_true_iff (a b : Bool) (h : a = true ↔ b = true) : a = b := by
  cases a <;> cases b <;> simp_all

/-- C4 counterexample: the route passes the raw search term to MongoDB as
an unescaped regular expression, so the term "a+b" returns the item titled
"aab" — whose genre and type match — although neither its title nor its
description contains "a+b" as a substring, refuting the claimed
equivalence; and the invalid pattern "(" makes the query error instead of
returning a result set at all. -/
theorem regex_search_not_literal_containment :
    filterRegex [itemAAB] "g" "movie" "a+b" = some [itemAAB] ∧
      "g" ∈ itemAAB.genre ∧ itemAAB.type = "movie" ∧
      ¬(lowerChars "a+b" <:+: lowerChars itemAAB.title ∨
        lowerChars "a+b" <:+: lowerChars itemAAB.description) ∧
      filterRegex [itemAAB] "g" "movie" "(" = none := by decide

/-- C4 amended: the raw search term is interpreted as an unescaped
regular expression; for search terms free of regex metacharacters the
regex filter coincides with the literal filter the listing uses, and an
item is returned iff it is in the catalog AND its genre matches the
given genre AND its type equals the given type AND the term occurs
case-insensitively in its title OR in its description. -/
theorem search_literal_and_or_structure (catalog : List Content)
    (g t s : String) (c : Content) (hs : literalOnly s.data = true) :
    filterRegex catalog g t s =
        some (catalog.filter (matchesQuery ⟨some g, some t, some s⟩)) ∧
      (c ∈ sortedMatching catalog ⟨some g, some t, some s⟩ ↔
        c ∈ catalog ∧ g ∈ c.genre ∧ c.type = t ∧
          (lowerChars s <:+: lowerChars c.title ∨
            lowerChars s <:+: lowerChars c.description)) := by
  have hlit := literalOnly_lowerChars s hs
  constructor
  · rw [filterRegex, parsePattern_literal (lowerChars s) hlit]
    have hsearch : ∀ f : String,
        regexSearch ((lowerChars s).map (fun d => Rpiece.once (Ratom.ch d)))
          (lowerChars f) = infixTest (lowerChars s) (lowerChars f) :=
      fun f => bool_eq_of_true_iff _ _
        ((regexSearch_literal (lowerChars s) (lowerChars f)).trans
          (infixTest_iff (lowerChars s) (lowerChars f)).symm)
    refine congrArg some ?_
    apply List.filter_congr
    intro x _
    rw [hsearch, hsearch]
    rfl
  · unfold sortedMatching
    rw [(List.perm_insertionSort newestFirst _).mem_iff, List.mem_filter]
    refine and_congr Iff.rfl ?_
    simp only [matchesQuery, ciContains, Bool.and_eq_true, Bool.or_eq_true,
      beq_iff_eq, infixTest_iff, List.contains_iff_exists_mem_beq]
    constructor
    · rintro ⟨⟨⟨a, ha, rfl⟩, ht⟩, hsr⟩
      exact ⟨ha, ht, hsr⟩
    · rintro ⟨hg, ht, hsr⟩
      exact ⟨⟨⟨g, hg, rfl⟩, ht⟩, hsr⟩

/-- C4 witness: at the spec's example — genre "comedy", search "love",
metacharacter-free — the regex filter equals the literal filter and the
comedy titled "Love Actually" is returned, satisfying the equivalence. -/
theorem search_literal_and_or_structure_witness :
    (filterRegex [itemComedyLove] "comedy" "movie" "love" =
        some ([itemComedyLove].filter
          (matchesQuery ⟨some "comedy", some "movie", some "love"⟩)) ∧
      (itemComedyLove ∈ sortedMatching [itemComedyLove]
          ⟨some "comedy", some "movie", some "love"⟩ ↔
        itemComedyLove ∈ [itemComedyLove] ∧
          "comedy" ∈ itemComedyLove.genre ∧
          itemComedyLove.type = "movie" ∧
          (lowerChars "love" <:+: lowerChars itemComedyLove.title ∨
            lowerChars "love" <:+: lowerChars itemComedyLove.description))) ∧
      itemComedyLove ∈ sortedMatching [itemComedyLove]
        ⟨some "comedy", some "movie", some "love"⟩ :=
  ⟨search_literal_and_or_structure [itemComedyLove] "comedy" "movie" "love"
      itemComedyLove (by decide),
    by decide⟩

/-- C5 counterexample: a negative parameter is parsed and then used as is:
the value actually used for pagination is not clamped to at least 1. -/
theorem pageParam_negative_used_as_is :
    pageParam (some "-5") = -5 ∧ limitParam (some "-5") = -5 ∧
      ¬(1 ≤ pageParam (some "-5")) := by decide

/-- C5 amended: page and limit are optional with defaults 1 and 10; an
absent, non-numeric, or zero parameter yields the default, but any other
parsed integer — negative values included — is used unchanged: there is
no clamping to at least 1. -/
theorem pageLimit_params (qp : Option String) :
    (qp.bind parseIntJS = none → pageParam qp = 1 ∧ limitParam qp = 10) ∧
      (qp.bind parseIntJS = some 0 → pageParam qp = 1 ∧ limitParam qp = 10) ∧
      ∀ n : Int, qp.bind parseIntJS = some n → n ≠ 0 →
        pageParam qp = n ∧ limitParam qp = n := by
  refine ⟨fun h => ?_, fun h => ?_, fun n h hn => ?_⟩ <;>
    simp [pageParam, limitParam, h, *]

/-- C5 witness: the defaults apply to an absent, non-numeric, or zero
parameter, and a negative parameter is used as parsed. -/
theorem pageLimit_params_witness :
    (pageParam none = 1 ∧ limitParam none = 10) ∧
      (pageParam (some "abc") = 1 ∧ limitParam (some "abc") = 10) ∧
      (pageParam (some "0") = 1 ∧ limitParam (some "0") = 10) ∧
      (pageParam (some "-3") = -3 ∧ limitParam (some "-3") = -3) :=
  ⟨(pageLimit_params none).1 rfl,
   (pageLimit_params (some "abc")).1 (by decide),
   (pageLimit_params (some "0")).2.1 (by decide),
   (pageLimit_params (some "-3")).2.2 (-3) (by decide) (by decide)⟩

/-- C6: registration fails at the validation middleware (400) when the
email is malformed or the password is shorter than 6 characters — the
policy has no composition rule — and a request with a well-formed email,
a password of at least 6 characters, and a non-empty profile name passes
validation. -/
theorem register_validation_policy (st : List UserRec)
    (hash : String → String) (e p n : String) :
    (isEmailValid e = false ∨ p.length < 6 →
      (register st hash e p n).response = .validationFailed ∧
        (register st hash e p n).state = st) ∧
      (isEmailValid e = true → 6 ≤ p.length → n ≠ "" →
        (register st hash e p n).response ≠ .validationFailed) := by
  constructor
  · intro h
    have hv : registerValidationOk e p n = false := by
      rcases h with h | h
      · simp [registerValidationOk, h]
      · have hnp : ¬(6 ≤ p.length) := by omega
        simp [registerValidationOk, hnp]
    simp [register, hv]
  · intro he hp hn
    have hv : registerValidationOk e p n = true := by
      simp [registerValidationOk, he, hp, hn]
    cases hfe : findByEmail st e with
    | some w => simp [register, hv, hfe]
    | none => simp [register, hv, hfe]

/-- C6 witness: a malformed email is rejected with the validation failure
and writes nothing, while a well-formed email with the all-lowercase
6-character password "aaaaaa" (no composition rule) and a non-empty
profile name passes validation. -/
theorem register_validation_policy_witness :
    ((register [] id "bad" "aaaaaa" "Ann").response = .validationFailed ∧
      (register [] id "bad" "aaaaaa" "Ann").state = []) ∧
      (register [] id "a@b.com" "aaaaaa" "Ann").response ≠
        .validationFailed :=
  ⟨(register_validation_policy [] id "bad" "aaaaaa" "Ann").1
      (Or.inl (by decide)),
    (register_validation_policy [] id "a@b.com" "aaaaaa" "Ann").2
      (by decide) (by decide) (by decide)⟩

/-- C3 counterexample: after a successful registration of a@b.com, a
second request for A@B.com whose password fails the policy is rejected by
the validation middleware — which runs before the duplicate-email check —
so it does not fail with Conflict, refuting the claim for arbitrary
request pairs. -/
theorem register_duplicate_not_always_conflict :
    (register [] id "a@b.com" "secret1" "Ann").response =
        .created ⟨"a@b.com", "secret1", "Ann", []⟩ ∧
      jsToLowerCase "a@b.com" = jsToLowerCase "A@B.com" ∧
      (register (register [] id "a@b.com" "secret1" "Ann").state id
          "A@B.com" "x" "Bob").response = .validationFailed ∧
      (register (register [] id "a@b.com" "secret1" "Ann").state id
          "A@B.com" "x" "Bob").response ≠ .conflictError := by decide

/-- C3 amended: for every pair of registration requests with the same
email up to letter case, if the first succeeds and the second passes
input validation, the second fails with Conflict and creates no user:
email uniqueness is enforced case-insensitively at write time. -/
theorem register_duplicate_email_conflict (st : List UserRec)
    (hash : String → String) (e1 p1 n1 e2 p2 n2 : String) (u : UserRec)
    (hcase : jsToLowerCase e1 = jsToLowerCase e2)
    (h1 : (register st hash e1 p1 n1).response = .created u)
    (hval : registerValidationOk e2 p2 n2 = true) :
    (register (register st hash e1 p1 n1).state hash e2 p2 n2).response =
        .conflictError ∧
      (register (register st hash e1 p1 n1).state hash e2 p2 n2).state =
        (register st hash e1 p1 n1).state := by
  by_cases hv1 : registerValidationOk e1 p1 n1
  case neg => simp [register, hv1] at h1
  case pos =>
    cases hfe : findByEmail st e1 with
    | some w => simp [register, hv1, hfe] at h1
    | none =>
      have hstate : (register st hash e1 p1 n1).state =
          st ++ [⟨jsToLowerCase e1, hash p1, n1, []⟩] := by
        simp [register, hv1, hfe]
      rw [hstate]
      have hfind :
          findByEmail (st ++ [⟨jsToLowerCase e1, hash p1, n1, []⟩]) e2 ≠
            none := by
        intro hnone
        rw [findByEmail, List.find?_eq_none] at hnone
        apply hnone ⟨jsToLowerCase e1, hash p1, n1, []⟩ (by simp)
        rw [show (⟨jsToLowerCase e1, hash p1, n1, []⟩ : UserRec).email =
          jsToLowerCase e1 from rfl, hcase]
        exact beq_self_eq_true _
      cases hfe2 :
          findByEmail (st ++ [⟨jsToLowerCase e1, hash p1, n1, []⟩]) e2 with
      | none => exact absurd hfe2 hfind
      | some w => simp [register, hval, hfe2]

/-- C3 witness: concretely, registering a@b.com and then A@B.com (a valid
request) yields Conflict and leaves the store unchanged. -/
theorem register_duplicate_email_conflict_witness :
    (register (register [] id "a@b.com" "secret1" "Ann").state id
        "A@B.com" "secret2" "Bob").response = .conflictError ∧
      (register (register [] id "a@b.com" "secret1" "Ann").state id
        "A@B.com" "secret2" "Bob").state =
        (register [] id "a@b.com" "secret1" "Ann").state :=
  register_duplicate_email_conflict [] id "a@b.com" "secret1" "Ann"
    "A@B.com" "secret2" "Bob" ⟨"a@b.com", "secret1", "Ann", []⟩
    (by decide) (by decide) (by decide)

/-- C7: adding an existing content id to a watchlist that does not yet
hold it succeeds; adding it again immediately is accepted (not an error),
leaves the watchlist unchanged with exactly one occurrence of the id, and
removing an id absent from a watchlist is a no-op, not an error. -/
theorem myList_add_idempotent_remove_noop (catalog : List Content)
    (u : UserRec) (cid : String)
    (hex : ∃ c ∈ catalog, c.id = cid) (hnew : cid ∉ u.myList) :
    ∃ u1 : UserRec,
      addToMyList catalog u cid = .ok u1 ∧
        addToMyList catalog u1 cid = .ok u1 ∧
        u1.myList.count cid = 1 ∧
        removeFromMyList u cid = u := by
  obtain ⟨c, hc, hcid⟩ := hex
  have hne : ¬((catalog.filter (fun c => c.id == cid)).isEmpty = true) := by
    rw [List.isEmpty_iff]
    intro hnil
    have : c ∈ catalog.filter (fun c => c.id == cid) := by
      rw [List.mem_filter]
      exact ⟨hc, by rw [hcid]; exact beq_self_eq_true _⟩
    rw [hnil] at this
    exact absurd this (List.not_mem_nil c)
  have hcontains : u.myList.contains cid = false := by
    rw [← Bool.not_eq_true]
    intro hcon
    rw [List.contains_iff_exists_mem_beq] at hcon
    obtain ⟨x, hx, hbeq⟩ := hcon
    exact hnew ((beq_iff_eq.mp hbeq) ▸ hx)
  refine ⟨{ u with myList := u.myList ++ [cid] }, ?_, ?_, ?_, ?_⟩
  · rw [addToMyList, if_neg hne, if_neg (by rw [hcontains]; exact Bool.false_ne_true)]
  · rw [addToMyList, if_neg hne]
    have : ({ u with myList := u.myList ++ [cid] } : UserRec).myList.contains
        cid = true := by
      rw [List.contains_iff_exists_mem_beq]
      exact ⟨cid, by simp, beq_self_eq_true _⟩
    rw [if_pos this]
  · show (u.myList ++ [cid]).count cid = 1
    rw [List.count_append, List.count_eq_zero.mpr hnew]
    simp [List.count_singleton]
  · have hfilter : u.myList.filter (fun i => i != cid) = u.myList :=
      List.filter_eq_self.mpr (fun x hx => by
        rw [bne_iff_ne]
        intro hxe
        exact hnew (hxe ▸ hx))
    rw [removeFromMyList, hfilter]

/-- C7 witness: the add/add and remove-absent behaviour at a concrete
catalog, user, and content id. -/
theorem myList_add_idempotent_remove_noop_witness :
    ∃ u1 : UserRec,
      addToMyList exCatalog exUser "A" = .ok u1 ∧
        addToMyList exCatalog u1 "A" = .ok u1 ∧
        u1.myList.count "A" = 1 ∧
        removeFromMyList exUser "A" = exUser :=
  myList_add_idempotent_remove_noop exCatalog exUser "A"
    (by decide) (by decide)

/-- C8: the parametric route `/:id` is registered before
`/recommendations`, so a GET for the path `/content/recommendations` is
dispatched to the get-by-id route, binding id = "recommendations"; the
dispatched handler is never the recommendations handler. -/
theorem recommendations_path_hits_byId :
    dispatchContentGet ["recommendations"] =
        some ⟨"byId", [Seg.param "id"], ["auth"]⟩ ∧
      bindParams [Seg.param "id"] ["recommendations"] =
        [("id", "recommendations")] ∧
      (dispatchContentGet ["recommendations"]).all
        (fun r => r.handler != "recommendations") = true := by decide

/-- C9: every GET route of the content router — list, get-by-id, and
get-by-genre included — carries the auth middleware, so a request whose
bearer token is absent, or present but failing verification, is answered
with 401 regardless of the handler. -/
theorem content_get_routes_require_auth (r : RouteEntry)
    (hr : r ∈ contentGetRoutes) (verify : String → Option String)
    (bearer : Option String) (respond : String → ApiResponse)
    (hbad : bearer = none ∨ ∃ tk, bearer = some tk ∧ verify tk = none) :
    r.middleware.contains "auth" = true ∧
      handleContentRoute verify bearer r respond = .error 401 := by
  have hauth : r.middleware.contains "auth" = true := by
    simp only [contentGetRoutes, List.mem_cons, List.not_mem_nil,
      or_false] at hr
    rcases hr with h | h | h | h <;> subst h <;> decide
  refine ⟨hauth, ?_⟩
  rw [handleContentRoute, if_pos hauth]
  rcases hbad with rfl | ⟨tk, rfl, hvt⟩
  · rfl
  · simp [runAuth, hvt]

/-- C9 witness: the list route carries auth, and a request with no bearer
token gets 401 there. -/
theorem content_get_routes_require_auth_witness :
    (RouteEntry.mk "list" [] ["auth"]).middleware.contains "auth" = true ∧
      handleContentRoute (fun _ => none) none ⟨"list", [], ["auth"]⟩
        (fun _ => ApiResponse.ok "") = .error 401 :=
  content_get_routes_require_auth ⟨"list", [], ["auth"]⟩ (by decide)
    (fun _ => none) none (fun _ => ApiResponse.ok "") (Or.inl rfl)

lemma uint32_le_iff_toNat (a b : UInt32) : a ≤ b ↔ a.toNat ≤ b.toNat :=
  ⟨fun h => h, fun h => h⟩

lemma toLower_isUpper_eq_false (c : Char) :
    (Char.toLower c).isUpper = false := by
  unfold Char.toLower
  by_cases h : c.toNat ≥ 65 ∧ c.toNat ≤ 90
  · rw [if_pos h]
    have hv : (c.toNat + 32).isValidChar := Or.inl (by omega)
    have ht : (Char.ofNat (c.toNat + 32)).toNat = c.toNat + 32 := by
      simp [Char.ofNat, hv]
      rfl
    unfold Char.isUpper
    have h90 : ¬((Char.ofNat (c.toNat + 32)).val ≤ 90) := by
      rw [uint32_le_iff_toNat]
      have h1 : (Char.ofNat (c.toNat + 32)).val.toNat = c.toNat + 32 := ht
      have h2 : (90 : UInt32).toNat = 90 := rfl
      rw [h1, h2]
      omega
    simp [h90]
  · rw [if_neg h]
    unfold Char.isUpper
    rcases not_and_or.mp h with h1 | h1
    · have h65 : ¬((65 : UInt32) ≤ c.val) := by
        rw [uint32_le_iff_toNat]
        have h2 : (65 : UInt32).toNat = 65 := rfl
        rw [h2]
        exact h1
      simp [h65]
    · have h90 : ¬(c.val ≤ (90 : UInt32)) := by
        rw [uint32_le_iff_toNat]
        have h2 : (90 : UInt32).toNat = 90 := rfl
        rw [h2]
        exact h1
      simp [h90]

/-- C10: register lower-cases the email before persisting, and it is the
only email-writing operation, so in every reachable user-store state no
stored email contains an uppercase letter. -/
theorem register_emails_lowercase (hash : String → String)
    (st : List UserRec) (hst : ReachableUsers hash st) :
    ∀ u ∈ st, ∀ ch ∈ u.email.data, ch.isUpper = false := by
  induction hst with
  | init =>
    intro u hu
    exact absurd hu (List.not_mem_nil u)
  | step st e p n _ ih =>
    intro u hu ch hch
    by_cases hv : registerValidationOk e p n
    · cases hfe : findByEmail st e with
      | some w =>
        simp [register, hv, hfe] at hu
        exact ih u hu ch hch
      | none =>
        simp [register, hv, hfe] at hu
        rcases hu with hu | hu
        · exact ih u hu ch hch
        · subst hu
          simp only [jsToLowerCase, List.mem_map] at hch
          obtain ⟨c0, _, rfl⟩ := hch
          exact toLower_isUpper_eq_false c0
    · simp [register, hv] at hu
      exact ih u hu ch hch

/-- C10 witness: the state reached by registering A@B.com holds only
lowercase emails. -/
theorem register_emails_lowercase_witness :
    ((register [] id "A@B.com" "secret1" "Ann").state.all
      (fun u => u.email.data.all (fun ch => !ch.isUpper))) = true := by
  have h := register_emails_lowercase id _
    (ReachableUsers.step [] "A@B.com" "secret1" "Ann" ReachableUsers.init)
  rw [List.all_eq_true]
  intro u hu
  rw [List.all_eq_true]
  intro ch hch
  rw [Bool.not_eq_true']
  exact h u hu ch hch

end NetflixClone
